import Mathlib

/-!
Shallow embedding of the SWE-Corona domain model (`src/model.rs`).

Modelling conventions:
* Rust `f64` prices and quantities are modelled as `Rat`.  None of the
  verified properties depends on floating-point rounding: the code only
  accumulates quantities with `+=` and the statements below follow the
  same left-to-right accumulation.
* Rust `u64` (`order_id`, `sequence_id`) is modelled as `Nat`; the counter
  starts at 0 and is bumped by 1 per checkout, so a wrap-around is
  unreachable in one application lifetime.
* `Vec<T>` is `List T`, `HashSet<String>` is `Finset String`.
* Methods taking `&mut self` become functions returning the updated value
  (together with the Rust return value, if any).
* A Rust `panic` (an `.unwrap()` that fires) is modelled by an `Option`
  result being `none`.
* The external `bcrypt` crate is modelled from the spec (see `bcryptHash`).
-/

namespace Corona

/-- Modelled from the spec: the external bcrypt crate's `hash` function
("hashes the password with a slow, salted one-way hash").  The model keeps
the password recoverable only through `bcryptVerify`; what matters for the
verification is that distinct passwords give distinct hashes and that every
produced hash is well-formed (carries the bcrypt prefix).  The cost factor
4 of the source is reflected in the prefix. -/
def bcryptHash (password : String) : String :=
  "$2b$04$" ++ password

/-- Modelled from the spec: whether a stored string parses as a bcrypt hash.
`bcrypt::verify` returns `Err` (not `Ok(false)`) on a string that does not
parse as a bcrypt hash. -/
def bcryptWellFormed (hash : String) : Bool :=
  "$2b$04$".data.isPrefixOf hash.data

/-- Modelled from the spec: `bcrypt::verify(password, hash)`.  `none` models
the `Err` case (malformed stored hash); `some b` models `Ok(b)`. -/
def bcryptVerify (password hash : String) : Option Bool :=
  if bcryptWellFormed hash then some (hash == bcryptHash password) else none

/-- Rust `Product` (model.rs:5): catalog entry with unique code, name, unit price. -/
structure Product where
  code : String
  name : String
  unit_price : Rat
deriving DecidableEq

/-- Rust `OrderItem` (model.rs:40): a copied `Product` snapshot plus a quantity. -/
structure OrderItem where
  product : Product
  quantity : Rat
deriving DecidableEq

def OrderItem.code (it : OrderItem) : String := it.product.code

def OrderItem.name (it : OrderItem) : String := it.product.name

/-- Rust `OrderItem::total_price` (model.rs:65). -/
def OrderItem.total_price (it : OrderItem) : Rat :=
  it.quantity * it.product.unit_price

/-- Rust `OrderPayment` (model.rs:87). -/
inductive OrderPayment where
  | Cash : OrderPayment
  | CreditCard (card_number : String) : OrderPayment
deriving DecidableEq

/-- Rust `OrderState` (model.rs:110). -/
inductive OrderState where
  | Open : OrderState
  | Closed (payment : OrderPayment) : OrderState
deriving DecidableEq

/-- Rust `Order` (model.rs:126). -/
structure Order where
  order_id : Nat
  username : String
  items : List OrderItem
  delivery_address : String
  state : OrderState
deriving DecidableEq

/-- Rust `Order::total_price` (model.rs:156). -/
def Order.total_price (o : Order) : Rat :=
  (o.items.map (fun it => it.product.unit_price * it.quantity)).sum

/-- Rust `Order::close` (model.rs:164): returns the updated order and the Rust
`bool` result. -/
def Order.close (o : Order) (payment : OrderPayment) : Order × Bool :=
  match o.state with
  | OrderState.Open => ({ o with state := OrderState.Closed payment }, true)
  | OrderState.Closed _ => (o, false)

/-- Rust `Cart` (model.rs:176): a newtype over `Vec<OrderItem>`. -/
structure Cart where
  items : List OrderItem
deriving DecidableEq

/-- The list-level body of `Cart::add_item` (model.rs:186):
`iter_mut().find` locates the first entry with the same product code and
bumps its quantity; otherwise the item is pushed at the end. -/
def addItemIntoList (product : Product) (quantity : Rat) :
    List OrderItem → List OrderItem
  | [] => [{ product := product, quantity := quantity }]
  | it :: rest =>
    if it.product.code = product.code then
      { it with quantity := it.quantity + quantity } :: rest
    else
      it :: addItemIntoList product quantity rest

/-- Rust `Cart::add_item` (model.rs:186). -/
def Cart.add_item (c : Cart) (product : Product) (quantity : Rat) : Cart :=
  ⟨addItemIntoList product quantity c.items⟩

/-- Rust `Cart::remove_item` (model.rs:202): `retain` keeps the items whose code
differs. -/
def Cart.remove_item (c : Cart) (code : String) : Cart :=
  ⟨c.items.filter (fun it => it.product.code ≠ code)⟩

/-- Rust `User` (model.rs:209). -/
structure User where
  username : String
  password_hash : String
  email : String
  cart : Cart
deriving DecidableEq

/-- Rust `User::is_admin` (model.rs:233). -/
def User.is_admin (u : User) : Bool :=
  u.username == "admin"

/-- Rust `UserManager` (model.rs:242).  The `usernames_taken` field carries
`#[serde(skip)]` in the source: it is not persisted and deserialization
fills it with `Default::default()`, the empty set. -/
structure UserManager where
  users : List User
  usernames_taken : Finset String

/-- Rust `UserManager::add_user` (model.rs:253): `usernames_taken.insert` returns
`false` (and the method bails out) when the username is already in the set;
otherwise the password is hashed and the new user is pushed with a default
(empty) cart.  Returns the updated manager and the Rust `bool` result. -/
def UserManager.add_user (um : UserManager) (username password email : String) :
    UserManager × Bool :=
  if username ∈ um.usernames_taken then
    (um, false)
  else
    ({ users := um.users ++
        [{ username := username, password_hash := bcryptHash password,
           email := email, cart := ⟨[]⟩ }],
       usernames_taken := insert username um.usernames_taken }, true)

/-- The predicate of the `find` inside `UserManager::user_login_mut`
(model.rs:277): `u.username == username && bcrypt::verify(...).unwrap()`.
`&&` short-circuits, so `verify` runs only on a username match; `none`
models the `.unwrap()` firing on a `verify` error. -/
def loginMatches (username password : String) (u : User) : Option Bool :=
  if u.username = username then bcryptVerify password u.password_hash
  else some false

/-- Rust `Iterator::find` with a predicate that may panic: `none` means the scan
panicked, `some none` means no element matched, `some (some u)` means `u` is
the first match. -/
def findFallible (p : User → Option Bool) : List User → Option (Option User)
  | [] => some none
  | u :: rest =>
    match p u with
    | none => none
    | some true => some (some u)
    | some false => findFallible p rest

/-- Rust `UserManager::user_login_mut` (model.rs:272): scans `users` in order for
the first user whose username matches and whose stored hash verifies against
the supplied password.  `none` models a process-terminating panic (the
`.unwrap()` on `bcrypt::verify`); `some none` is the normal "unauthorized"
result; `some (some u)` is a successful login. -/
def UserManager.user_login_mut (um : UserManager) (username password : String) :
    Option (Option User) :=
  findFallible (loginMatches username password) um.users

/-- Rust `Catalog` (model.rs:285). -/
structure Catalog where
  products : List Product
deriving DecidableEq

/-- Rust `Catalog::add_product` (model.rs:290): appends unconditionally. -/
def Catalog.add_product (c : Catalog) (product : Product) : Catalog :=
  ⟨c.products ++ [product]⟩

/-- Rust `Catalog::remove_product` (model.rs:294). -/
def Catalog.remove_product (c : Catalog) (code : String) : Catalog :=
  ⟨c.products.filter (fun p => p.code ≠ code)⟩

/-- Rust `OrderManager` (model.rs:307). -/
structure OrderManager where
  orders : List Order
  sequence_id : Nat

/-- Rust `OrderManager::checkout` (model.rs:314): assigns `sequence_id` as the
new `order_id`, bumps the counter, moves the user's cart items into a new
`Open` order (`std::mem::take` leaves the cart empty), pushes the order and
returns `self.orders.last().unwrap()`.  The returned components are the
updated manager, the updated user, and the Rust return value
`orders.last()`: `none` there models the `.unwrap()` firing. -/
def OrderManager.checkout (om : OrderManager) (user : User)
    (delivery_address : String) : OrderManager × User × Option Order :=
  let order : Order :=
    { order_id := om.sequence_id
      username := user.username
      items := user.cart.items
      delivery_address := delivery_address
      state := OrderState.Open }
  let orders' := om.orders ++ [order]
  ({ orders := orders', sequence_id := om.sequence_id + 1 },
   { user with cart := ⟨[]⟩ },
   orders'.getLast?)

/-- Rust `CoronaApplication` (model.rs:340): the aggregate root. -/
structure CoronaApplication where
  user_manager : UserManager
  catalog : Catalog
  order_manager : OrderManager

/-- The persisted form of the application state: all serialized fields of
the (flattened) aggregate.  `usernames_taken` is absent because of its
`#[serde(skip)]` attribute. -/
structure PersistedState where
  users : List User
  products : List Product
  orders : List Order
  sequence_id : Nat

/-- Rust `CoronaApplication::save` (model.rs:354), restricted to the encoding of
the state (file writing and the TOML byte format are external collaborators
per the spec): the snapshot contains every field except `usernames_taken`,
which is `#[serde(skip)]`. -/
def CoronaApplication.save (app : CoronaApplication) : PersistedState :=
  { users := app.user_manager.users
    products := app.catalog.products
    orders := app.order_manager.orders
    sequence_id := app.order_manager.sequence_id }

/-- Rust `CoronaApplication::load` (model.rs:361), restricted to the successful
decoding of a persisted snapshot (file reading and the TOML byte format are
external collaborators per the spec): serde's derived `Deserialize` fills a
`#[serde(skip)]` field with `Default::default()`, so `usernames_taken` comes
back as the empty set; no code in the repository rebuilds it from `users`. -/
def CoronaApplication.load (p : PersistedState) : CoronaApplication :=
  { user_manager := { users := p.users, usernames_taken := ∅ }
    catalog := ⟨p.products⟩
    order_manager := { orders := p.orders, sequence_id := p.sequence_id } }

/-- A `UserManager` is well-formed when usernames are pairwise distinct and
the `usernames_taken` index is exactly the set of usernames of `users`
(the invariant `add_user` maintains from the `Default` starting state). -/
def UserManager.wellFormed (um : UserManager) : Prop :=
  (um.users.map User.username).Nodup ∧
  um.usernames_taken = (um.users.map User.username).toFinset

/-- Iterated `checkout` over a list of (user, delivery address) requests,
threading the manager state. -/
def runCheckouts (om : OrderManager) : List (User × String) → OrderManager
  | [] => om
  | (u, a) :: rest => runCheckouts (om.checkout u a).1 rest

/-- Iterated `Cart::add_item` over a list of (product, quantity) requests. -/
def runAddItems (c : Cart) : List (Product × Rat) → Cart
  | [] => c
  | (p, q) :: rest => runAddItems (c.add_item p q) rest

/-! ## Helper lemmas -/

theorem bcryptWellFormed_bcryptHash (pw : String) :
    bcryptWellFormed (bcryptHash pw) = true := by
  simp only [bcryptWellFormed, bcryptHash, String.data_append,
    List.isPrefixOf_iff_prefix]
  exact List.prefix_append _ _

theorem bcryptHash_injective {p₁ p₂ : String}
    (h : bcryptHash p₁ = bcryptHash p₂) : p₁ = p₂ := by
  have hd : ("$2b$04$" : String).data ++ p₁.data =
      ("$2b$04$" : String).data ++ p₂.data := by
    have := congrArg String.data h
    simpa only [bcryptHash, String.data_append] using this
  exact String.ext (List.append_cancel_left hd)

theorem bcryptVerify_eq_of_hashed (password pw : String) :
    bcryptVerify password (bcryptHash pw) = some (bcryptHash pw == bcryptHash password) := by
  simp [bcryptVerify, bcryptWellFormed_bcryptHash]

/-! ## Claim theorems -/

/-- Claim C3: for every order, `close(order, payment)` returns true iff the
order's state is Open before the call; on an Open order the state afterwards
is Closed with exactly the given payment and every other field is unchanged;
on an already Closed order the call returns false and the whole order
(including the previously stored payment) is unchanged. -/
theorem close_open_to_closed (o : Order) (payment : OrderPayment) :
    ((o.close payment).2 = true ↔ o.state = OrderState.Open) ∧
    (o.state = OrderState.Open →
      (o.close payment).1 = { o with state := OrderState.Closed payment }) ∧
    (∀ p0, o.state = OrderState.Closed p0 → o.close payment = (o, false)) := by
  rcases h : o.state with _ | p0 <;> simp [Order.close, h]

/-- Witness for C3: closing a concrete Open order yields Closed Cash, and a
second close on the result fails and changes nothing. -/
theorem close_open_to_closed_spot :
    (Order.close
      { order_id := 0, username := "alice", items := [],
        delivery_address := "home", state := OrderState.Open }
      OrderPayment.Cash).1 =
      { order_id := 0, username := "alice", items := [],
        delivery_address := "home", state := OrderState.Closed OrderPayment.Cash } :=
  (close_open_to_closed
    { order_id := 0, username := "alice", items := [],
      delivery_address := "home", state := OrderState.Open }
    OrderPayment.Cash).2.1 rfl

/-- Claim C4: `checkout(user, delivery_address)` empties the user's cart and
returns a new Open order whose item list is exactly the cart's pre-checkout
contents by value (the order holds its own copy of the item data, so it does
not depend on the Catalog at all) and whose username is the user's username.
The returned order is the one pushed into the manager. -/
theorem checkout_moves_cart (om : OrderManager) (user : User) (addr : String) :
    ∃ order : Order,
      om.checkout user addr =
        ({ orders := om.orders ++ [order], sequence_id := om.sequence_id + 1 },
         { user with cart := ⟨[]⟩ }, some order) ∧
      order.state = OrderState.Open ∧
      order.items = user.cart.items ∧
      order.username = user.username ∧
      order.order_id = om.sequence_id ∧
      order.delivery_address = addr := by
  refine ⟨{ order_id := om.sequence_id, username := user.username,
            items := user.cart.items, delivery_address := addr,
            state := OrderState.Open }, ?_, rfl, rfl, rfl, rfl, rfl⟩
  simp [OrderManager.checkout, List.getLast?_concat]

/-- Claim C1 (code bug): after a save/load round trip the `usernames_taken`
index is NOT rebuilt from the restored user list — `#[serde(skip)]` restores
it as the empty set and no code repopulates it — so `add_user` with the
username of a restored user returns `true` and creates a duplicate user,
where the claim requires it to return `false`. -/
theorem load_does_not_rebuild_taken_usernames :
    (CoronaApplication.load
      (CoronaApplication.save
        { user_manager :=
            { users := [{ username := "alice", password_hash := bcryptHash "pw",
                          email := "a@x.com", cart := ⟨[]⟩ }],
              usernames_taken := {"alice"} }
          catalog := ⟨[]⟩
          order_manager := { orders := [], sequence_id := 0 } })).user_manager.usernames_taken
        = ∅ ∧
    ((CoronaApplication.load
      (CoronaApplication.save
        { user_manager :=
            { users := [{ username := "alice", password_hash := bcryptHash "pw",
                          email := "a@x.com", cart := ⟨[]⟩ }],
              usernames_taken := {"alice"} }
          catalog := ⟨[]⟩
          order_manager := { orders := [], sequence_id := 0 } })).user_manager.add_user
        "alice" "other" "b@x.com").2 = true ∧
    (((CoronaApplication.load
      (CoronaApplication.save
        { user_manager :=
            { users := [{ username := "alice", password_hash := bcryptHash "pw",
                          email := "a@x.com", cart := ⟨[]⟩ }],
              usernames_taken := {"alice"} }
          catalog := ⟨[]⟩
          order_manager := { orders := [], sequence_id := 0 } })).user_manager.add_user
        "alice" "other" "b@x.com").1.users.map User.username) = ["alice", "alice"] := by
  refine ⟨rfl, ?_, ?_⟩ <;> decide

/-- Claim C2 counterexample: `user_login_mut` does NOT return normally on
every input.  On a `UserManager` whose stored `password_hash` is not a
well-formed bcrypt hash (the empty string here — such a state is reachable
by `load()` from an edited state file, since `password_hash` is persisted as
a plain string), the `.unwrap()` on `bcrypt::verify`'s error terminates the
process; the model returns `none`. -/
theorem login_panics_on_malformed_hash :
    UserManager.user_login_mut
      { users := [{ username := "alice", password_hash := "",
                    email := "a@x.com", cart := ⟨[]⟩ }],
        usernames_taken := {"alice"} }
      "alice" "pw" = none := by
  decide

theorem findFallible_isSome_of_wellFormed (username password : String)
    (l : List User) (h : ∀ u ∈ l, bcryptWellFormed u.password_hash = true) :
    (findFallible (loginMatches username password) l).isSome = true := by
  induction l with
  | nil => rfl
  | cons u rest ih =>
    have hu : bcryptWellFormed u.password_hash = true :=
      h u (List.mem_cons_self u rest)
    have hrest : ∀ v ∈ rest, bcryptWellFormed v.password_hash = true :=
      fun v hv => h v (List.mem_cons_of_mem u hv)
    by_cases hn : u.username = username
    · cases hb : (u.password_hash == bcryptHash password) <;>
        simp [findFallible, loginMatches, bcryptVerify, hn, hu, hb, ih hrest]
    · simp [findFallible, loginMatches, hn, ih hrest]

/-- Claim C2 (amended): `add_item`, `remove_item`, `add_product`,
`remove_product`, `close` and `add_user` contain no failing construct and are
embedded as total functions; the two operations whose source does contain an
`.unwrap()` return normally under the stated conditions: `checkout`'s unwrap
of `orders.last()` never fires (an element was just pushed), and
`user_login_mut` returns normally whenever every stored password hash is a
well-formed bcrypt hash, i.e. as produced by `add_user` — only a state file
edited outside the program can violate that. -/
theorem core_ops_return_normally :
    (∀ (om : OrderManager) (user : User) (addr : String),
        ((om.checkout user addr).2.2).isSome = true) ∧
    (∀ (um : UserManager) (username password : String),
        (∀ u ∈ um.users, bcryptWellFormed u.password_hash = true) →
        (um.user_login_mut username password).isSome = true) := by
  constructor
  · intro om user addr
    simp [OrderManager.checkout, List.getLast?_concat]
  · intro um username password h
    exact findFallible_isSome_of_wellFormed username password um.users h

/-- Witness for C2 (amended): on a one-user manager whose stored hash was
produced by registration, a login attempt returns normally. -/
theorem core_ops_return_normally_spot :
    (UserManager.user_login_mut
      { users := [{ username := "alice", password_hash := bcryptHash "pw",
                    email := "a@x.com", cart := ⟨[]⟩ }],
        usernames_taken := {"alice"} } "alice" "wrong").isSome = true :=
  core_ops_return_normally.2
    { users := [{ username := "alice", password_hash := bcryptHash "pw",
                  email := "a@x.com", cart := ⟨[]⟩ }],
      usernames_taken := {"alice"} } "alice" "wrong" (by decide)

theorem filter_username_length_one (l : List User) (username : String)
    (hnodup : (l.map User.username).Nodup)
    (hmem : username ∈ l.map User.username) :
    (l.filter (fun u => u.username == username)).length = 1 := by
  induction l with
  | nil => simp at hmem
  | cons u rest ih =>
    simp only [List.map_cons, List.nodup_cons] at hnodup
    obtain ⟨hnotin, hnd⟩ := hnodup
    by_cases h : u.username = username
    · have hrest : rest.filter (fun v => v.username == username) = [] := by
        rw [List.filter_eq_nil_iff]
        intro v hv hbv
        apply hnotin
        rw [List.mem_map]
        exact ⟨v, hv, by rw [h]; exact beq_iff_eq.mp hbv⟩
      simp [List.filter_cons, h, hrest]
    · have hmem' : username ∈ rest.map User.username := by
        rcases List.mem_cons.mp hmem with hq | hq
        · exact absurd hq.symm h
        · exact hq
      simpa [List.filter_cons, h] using ih hnd hmem'

/-- Claim C5: on a well-formed manager, `add_user` with a taken username
returns false and changes nothing; with a fresh username it returns true and
appends exactly one user carrying that username, the hashed password, the
given email and an empty cart; and two successive `add_user` calls with the
same username always leave exactly one user with that username. -/
theorem add_user_unique (um : UserManager) (username pw em pw' em' : String)
    (hwf : um.wellFormed) :
    ((∃ u ∈ um.users, u.username = username) →
        um.add_user username pw em = (um, false)) ∧
    ((∀ u ∈ um.users, u.username ≠ username) →
        um.add_user username pw em =
          ({ users := um.users ++
              [{ username := username, password_hash := bcryptHash pw,
                 email := em, cart := ⟨[]⟩ }],
             usernames_taken := insert username um.usernames_taken }, true)) ∧
    (((um.add_user username pw em).1.add_user username pw' em').1.users.filter
        (fun u => u.username == username)).length = 1 := by
  obtain ⟨hnodup, hset⟩ := hwf
  by_cases hmem : username ∈ um.usernames_taken
  · have hex : username ∈ um.users.map User.username := by
      rw [hset] at hmem
      simpa using hmem
    have h1 : um.add_user username pw em = (um, false) := by
      simp [UserManager.add_user, hmem]
    have h2 : um.add_user username pw' em' = (um, false) := by
      simp [UserManager.add_user, hmem]
    refine ⟨fun _ => h1, ?_, ?_⟩
    · intro hnone
      exfalso
      obtain ⟨u, hu, hq⟩ := List.mem_map.mp hex
      exact hnone u hu hq
    · rw [h1, h2]
      exact filter_username_length_one um.users username hnodup hex
  · have hnotin : ∀ u ∈ um.users, u.username ≠ username := by
      intro u hu heq
      apply hmem
      rw [hset]
      exact List.mem_toFinset.mpr (List.mem_map.mpr ⟨u, hu, heq⟩)
    have h1 : um.add_user username pw em =
        ({ users := um.users ++
            [{ username := username, password_hash := bcryptHash pw,
               email := em, cart := ⟨[]⟩ }],
           usernames_taken := insert username um.usernames_taken }, true) := by
      simp [UserManager.add_user, hmem]
    refine ⟨?_, fun _ => h1, ?_⟩
    · intro hex
      exfalso
      obtain ⟨u, hu, hq⟩ := hex
      exact hnotin u hu hq
    · rw [h1]
      have hmem2 : username ∈ insert username um.usernames_taken :=
        Finset.mem_insert_self username um.usernames_taken
      have hfil : um.users.filter (fun u => u.username == username) = [] := by
        rw [List.filter_eq_nil_iff]
        intro v hv hbv
        exact hnotin v hv (beq_iff_eq.mp hbv)
      simp [UserManager.add_user, hmem2, List.filter_append, hfil]

/-- Witness for C5: registering "alice" twice from the empty manager leaves
exactly one user named "alice". -/
theorem add_user_unique_spot :
    ((((⟨[], ∅⟩ : UserManager).add_user "alice" "pw" "a@x.com").1.add_user
        "alice" "other" "b@x.com").1.users.filter
        (fun u => u.username == "alice")).length = 1 :=
  (add_user_unique ⟨[], ∅⟩ "alice" "pw" "a@x.com" "other" "b@x.com"
    (by constructor <;> simp)).2.2

theorem runCheckouts_orders (l : List (User × String)) (om : OrderManager) :
    (runCheckouts om l).orders.map Order.order_id =
      om.orders.map Order.order_id ++ List.range' om.sequence_id l.length ∧
    (runCheckouts om l).sequence_id = om.sequence_id + l.length := by
  induction l generalizing om with
  | nil => simp [runCheckouts]
  | cons p rest ih =>
    obtain ⟨u, a⟩ := p
    have h := ih (om.checkout u a).1
    constructor
    · rw [show runCheckouts om ((u, a) :: rest) =
          runCheckouts (om.checkout u a).1 rest from rfl, h.1]
      simp [OrderManager.checkout, List.range'_succ]
    · rw [show runCheckouts om ((u, a) :: rest) =
          runCheckouts (om.checkout u a).1 rest from rfl, h.2]
      simp [OrderManager.checkout]
      omega

/-- Claim C6: starting from a fresh `OrderManager`, any sequence of n
checkouts yields order ids 0, 1, ..., n-1 in that order (hence no id is ever
assigned twice), the counter ends at n, and every single checkout increases
`sequence_id` by exactly one. -/
theorem checkout_ids_sequential (l : List (User × String)) :
    (runCheckouts ⟨[], 0⟩ l).orders.map Order.order_id = List.range l.length ∧
    ((runCheckouts ⟨[], 0⟩ l).orders.map Order.order_id).Nodup ∧
    (runCheckouts ⟨[], 0⟩ l).sequence_id = l.length ∧
    (∀ (om : OrderManager) (u : User) (a : String),
        (om.checkout u a).1.sequence_id = om.sequence_id + 1) := by
  have h := runCheckouts_orders l ⟨[], 0⟩
  have hr : (runCheckouts ⟨[], 0⟩ l).orders.map Order.order_id =
      List.range l.length := by
    rw [h.1, List.range_eq_range']
    simp
  refine ⟨hr, ?_, by simpa using h.2, fun om u a => rfl⟩
  rw [hr]
  exact List.nodup_range l.length

theorem runAddItems_same_code (p : Product) (l : List (Product × Rat))
    (h : ∀ x ∈ l, x.1.code = p.code) (q : Rat) :
    runAddItems ⟨[{ product := p, quantity := q }]⟩ l =
      ⟨[{ product := p, quantity := q + (l.map Prod.snd).sum }]⟩ := by
  induction l generalizing q with
  | nil => simp [runAddItems]
  | cons x rest ih =>
    obtain ⟨p', q'⟩ := x
    have hc : p'.code = p.code := h (p', q') (List.mem_cons_self _ _)
    have hrest : ∀ y ∈ rest, y.1.code = p.code :=
      fun y hy => h y (List.mem_cons_of_mem _ hy)
    have hstep : Cart.add_item ⟨[{ product := p, quantity := q }]⟩ p' q' =
        ⟨[{ product := p, quantity := q + q' }]⟩ := by
      simp [Cart.add_item, addItemIntoList, hc]
    rw [show runAddItems ⟨[{ product := p, quantity := q }]⟩ ((p', q') :: rest) =
          runAddItems (Cart.add_item ⟨[{ product := p, quantity := q }]⟩ p' q') rest
        from rfl, hstep, ih hrest (q + q')]
    simp [add_assoc]

/-- Claim C7: for every nonempty sequence of `add_item` calls on an initially
empty cart all sharing one product code, the cart ends with exactly one
`OrderItem` carrying that code, and its quantity is the sum of all the added
quantities. -/
theorem add_item_accumulates (l : List (Product × Rat)) (code : String)
    (hne : l ≠ []) (hcode : ∀ x ∈ l, x.1.code = code) :
    ∃ it : OrderItem, (runAddItems ⟨[]⟩ l).items = [it] ∧
      it.product.code = code ∧ it.quantity = (l.map Prod.snd).sum := by
  cases l with
  | nil => exact absurd rfl hne
  | cons x rest =>
    obtain ⟨p, q⟩ := x
    have hp : p.code = code := hcode (p, q) (List.mem_cons_self _ _)
    have hrest : ∀ y ∈ rest, y.1.code = p.code := by
      intro y hy
      rw [hcode y (List.mem_cons_of_mem _ hy), hp]
    have h0 : runAddItems ⟨[]⟩ ((p, q) :: rest) =
        runAddItems ⟨[{ product := p, quantity := q }]⟩ rest := by
      rfl
    rw [h0, runAddItems_same_code p rest hrest q]
    exact ⟨{ product := p, quantity := q + (rest.map Prod.snd).sum }, rfl, hp,
      by simp⟩

/-- Witness for C7: two same-code additions (quantities 2 and 4, the second
with a changed name and price) leave one entry of quantity 6. -/
theorem add_item_accumulates_spot :
    ∃ it : OrderItem,
      (runAddItems ⟨[]⟩
        [({ code := "c", name := "n", unit_price := 1 }, 2),
         ({ code := "c", name := "m", unit_price := 3 }, 4)]).items = [it] ∧
      it.product.code = "c" ∧
      it.quantity =
        ([(({ code := "c", name := "n", unit_price := 1 } : Product), (2 : Rat)),
          ({ code := "c", name := "m", unit_price := 3 }, 4)].map Prod.snd).sum :=
  add_item_accumulates
    [({ code := "c", name := "n", unit_price := 1 }, 2),
     ({ code := "c", name := "m", unit_price := 3 }, 4)] "c"
    (by decide) (by decide)

theorem addItemIntoList_no_match (p : Product) (q : Rat) (l : List OrderItem)
    (h : ∀ it ∈ l, it.product.code ≠ p.code) :
    addItemIntoList p q l = l ++ [{ product := p, quantity := q }] := by
  induction l with
  | nil => rfl
  | cons it rest ih =>
    have h1 : it.product.code ≠ p.code := h it (List.mem_cons_self _ _)
    simp only [addItemIntoList, if_neg h1,
      ih (fun x hx => h x (List.mem_cons_of_mem _ hx)), List.cons_append]

/-- Claim C9: `remove_item(code)` followed by `add_item` with a product of
that code and quantity q leaves the cart's entries for that code being
exactly one fresh entry of quantity q (no residual quantity); and
`remove_item` on a code not present in the cart is a no-op. -/
theorem remove_then_add_fresh (c : Cart) (p : Product) (q : Rat) (code : String) :
    ((c.remove_item p.code).add_item p q).items.filter
        (fun it => it.product.code == p.code) = [{ product := p, quantity := q }] ∧
    ((∀ it ∈ c.items, it.product.code ≠ code) → c.remove_item code = c) := by
  constructor
  · have hno : ∀ it ∈ (c.remove_item p.code).items, it.product.code ≠ p.code := by
      intro it hit
      simp only [Cart.remove_item, List.mem_filter, decide_not,
        Bool.not_eq_eq_eq_not, Bool.not_true, decide_eq_false_iff_not] at hit
      exact hit.2
    have hitems : ((c.remove_item p.code).add_item p q).items =
        (c.remove_item p.code).items ++ [{ product := p, quantity := q }] := by
      simp [Cart.add_item, addItemIntoList_no_match p q _ hno]
    rw [hitems, List.filter_append]
    have h1 : (c.remove_item p.code).items.filter
        (fun it => it.product.code == p.code) = [] := by
      rw [List.filter_eq_nil_iff]
      intro it hit hb
      exact hno it hit (beq_iff_eq.mp hb)
    rw [h1]
    simp
  · intro h
    cases c with
    | mk items =>
      simp only [Cart.remove_item, Cart.mk.injEq]
      rw [List.filter_eq_self]
      intro it hit
      simpa using h it hit

/-- Witness for C9: removing an absent code "b" from a one-item cart leaves
the cart unchanged. -/
theorem remove_then_add_fresh_spot :
    Cart.remove_item
      ⟨[{ product := { code := "a", name := "x", unit_price := 1 },
          quantity := 2 }]⟩ "b" =
      ⟨[{ product := { code := "a", name := "x", unit_price := 1 },
          quantity := 2 }]⟩ :=
  (remove_then_add_fresh
    ⟨[{ product := { code := "a", name := "x", unit_price := 1 },
        quantity := 2 }]⟩
    { code := "a", name := "x", unit_price := 1 } 2 "b").2 (by decide)

theorem addItemIntoList_first_match (p : Product) (q : Rat) (l : List OrderItem)
    (h : ∃ it ∈ l, it.product.code = p.code) :
    ∃ (l₁ l₂ : List OrderItem) (it : OrderItem),
      l = l₁ ++ it :: l₂ ∧
      (∀ x ∈ l₁, x.product.code ≠ p.code) ∧
      it.product.code = p.code ∧
      addItemIntoList p q l =
        l₁ ++ { it with quantity := it.quantity + q } :: l₂ := by
  induction l with
  | nil => simp at h
  | cons it rest ih =>
    by_cases hc : it.product.code = p.code
    · refine ⟨[], rest, it, rfl, by simp, hc, ?_⟩
      simp [addItemIntoList, hc]
    · have h' : ∃ x ∈ rest, x.product.code = p.code := by
        rcases h with ⟨x, hx, hxc⟩
        rcases List.mem_cons.mp hx with hl | hx'
        · exact absurd (hl ▸ hxc) hc
        · exact ⟨x, hx', hxc⟩
      obtain ⟨l₁, l₂, it', heq, hnone, hc', hadd⟩ := ih h'
      refine ⟨it :: l₁, l₂, it', by rw [heq]; rfl, ?_, hc', ?_⟩
      · intro x hx
        rcases List.mem_cons.mp hx with hl | hx'
        · exact hl ▸ hc
        · exact hnone x hx'
      · simp only [addItemIntoList, if_neg hc, hadd, List.cons_append]

/-- Claim C10: when `add_item` merges into an existing entry, the cart is
unchanged except that the FIRST entry with the product's code has its
quantity increased by the added quantity; that entry keeps the name and unit
price captured when it was first created (the supplied product's current
name and price are ignored) and every other entry is untouched. -/
theorem add_item_merge_frame (c : Cart) (p : Product) (q : Rat)
    (h : ∃ it ∈ c.items, it.product.code = p.code) :
    ∃ (l₁ l₂ : List OrderItem) (it : OrderItem),
      c.items = l₁ ++ it :: l₂ ∧
      (∀ x ∈ l₁, x.product.code ≠ p.code) ∧
      it.product.code = p.code ∧
      (c.add_item p q).items =
        l₁ ++ { it with quantity := it.quantity + q } :: l₂ := by
  obtain ⟨l₁, l₂, it, heq, hnone, hc, hadd⟩ :=
    addItemIntoList_first_match p q c.items h
  exact ⟨l₁, l₂, it, heq, hnone, hc, by simpa [Cart.add_item] using hadd⟩

/-- Witness for C10: merging product code "a" (offered under a new name "y"
and price 5) into a cart holding ⟨"a","x",1⟩ at quantity 2 gives quantity 5
while keeping name "x" and price 1. -/
theorem add_item_merge_frame_spot :
    ∃ (l₁ l₂ : List OrderItem) (it : OrderItem),
      (⟨[{ product := { code := "a", name := "x", unit_price := 1 },
           quantity := 2 }]⟩ : Cart).items = l₁ ++ it :: l₂ ∧
      (∀ x ∈ l₁, x.product.code ≠
        ({ code := "a", name := "y", unit_price := 5 } : Product).code) ∧
      it.product.code =
        ({ code := "a", name := "y", unit_price := 5 } : Product).code ∧
      (Cart.add_item
        ⟨[{ product := { code := "a", name := "x", unit_price := 1 },
            quantity := 2 }]⟩
        { code := "a", name := "y", unit_price := 5 } 3).items =
        l₁ ++ { it with quantity := it.quantity + 3 } :: l₂ :=
  add_item_merge_frame
    ⟨[{ product := { code := "a", name := "x", unit_price := 1 },
        quantity := 2 }]⟩
    { code := "a", name := "y", unit_price := 5 } 3 (by decide)

theorem findFallible_login (username password : String) (l : List User)
    (hreg : ∀ u ∈ l, ∃ pw, u.password_hash = bcryptHash pw) :
    (∀ u, findFallible (loginMatches username password) l = some (some u) →
        u ∈ l ∧ u.username = username ∧
        u.password_hash = bcryptHash password) ∧
    ((∀ u ∈ l, ¬(u.username = username ∧ u.password_hash = bcryptHash password)) →
        findFallible (loginMatches username password) l = some none) := by
  induction l with
  | nil =>
    constructor
    · intro u hu
      simp [findFallible] at hu
    · intro _
      rfl
  | cons u rest ih =>
    obtain ⟨pw, hpw⟩ := hreg u (List.mem_cons_self _ _)
    obtain ⟨ih1, ih2⟩ := ih (fun v hv => hreg v (List.mem_cons_of_mem _ hv))
    by_cases hn : u.username = username
    · cases hb : (u.password_hash == bcryptHash password) with
      | false =>
        have hstep : findFallible (loginMatches username password) (u :: rest) =
            findFallible (loginMatches username password) rest := by
          rw [hpw] at hb
          simp [findFallible, loginMatches, bcryptVerify, hn, hpw,
            bcryptWellFormed_bcryptHash, hb]
        rw [hstep]
        constructor
        · intro v hv
          obtain ⟨hm, h2, h3⟩ := ih1 v hv
          exact ⟨List.mem_cons_of_mem _ hm, h2, h3⟩
        · intro hno
          exact ih2 (fun v hv => hno v (List.mem_cons_of_mem _ hv))
      | true =>
        have heqh : u.password_hash = bcryptHash password := beq_iff_eq.mp hb
        have hstep : findFallible (loginMatches username password) (u :: rest) =
            some (some u) := by
          rw [hpw] at hb
          simp [findFallible, loginMatches, bcryptVerify, hn, hpw,
            bcryptWellFormed_bcryptHash, hb]
        rw [hstep]
        constructor
        · intro v hv
          have huv : u = v := by
            injection hv with hv'
            injection hv'
          exact huv ▸ ⟨List.mem_cons_self _ _, hn, heqh⟩
        · intro hno
          exact absurd ⟨hn, heqh⟩ (hno u (List.mem_cons_self _ _))
    · have hstep : findFallible (loginMatches username password) (u :: rest) =
          findFallible (loginMatches username password) rest := by
        simp [findFallible, loginMatches, hn]
      rw [hstep]
      constructor
      · intro v hv
        obtain ⟨hm, h2, h3⟩ := ih1 v hv
        exact ⟨List.mem_cons_of_mem _ hm, h2, h3⟩
      · intro hno
        exact ih2 (fun v hv => hno v (List.mem_cons_of_mem _ hv))

/-- Claim C8: when every stored hash was produced at registration, a login
returns a user only if the username matches and the supplied password hashes
to exactly the stored hash — and `bcryptHash` is injective, so the supplied
password IS the registration password; whenever no stored user matches both
conditions (wrong password for an existing username, or a username nobody
has), the result is the one value `some none`, indistinguishable between the
two failure causes. -/
theorem login_requires_exact_password (um : UserManager)
    (username password : String)
    (hreg : ∀ u ∈ um.users, ∃ pw, u.password_hash = bcryptHash pw) :
    (∀ u, um.user_login_mut username password = some (some u) →
        u ∈ um.users ∧ u.username = username ∧
        u.password_hash = bcryptHash password) ∧
    ((∀ u ∈ um.users,
        ¬(u.username = username ∧ u.password_hash = bcryptHash password)) →
        um.user_login_mut username password = some none) ∧
    (∀ pw₁ pw₂ : String, bcryptHash pw₁ = bcryptHash pw₂ → pw₁ = pw₂) := by
  obtain ⟨h1, h2⟩ := findFallible_login username password um.users hreg
  exact ⟨h1, h2, fun pw₁ pw₂ h => bcryptHash_injective h⟩

/-- Witness for C8: on a manager holding "alice" registered with password
"pw", the login attempt ("alice", "wrong") yields the plain None result. -/
theorem login_requires_exact_password_spot :
    UserManager.user_login_mut
      { users := [{ username := "alice", password_hash := bcryptHash "pw",
                    email := "a@x.com", cart := ⟨[]⟩ }],
        usernames_taken := {"alice"} } "alice" "wrong" = some none :=
  (login_requires_exact_password
    { users := [{ username := "alice", password_hash := bcryptHash "pw",
                  email := "a@x.com", cart := ⟨[]⟩ }],
      usernames_taken := {"alice"} } "alice" "wrong"
    (by
      intro u hu
      rw [List.mem_singleton] at hu
      subst hu
      exact ⟨"pw", rfl⟩)).2.1 (by decide)

end Corona
